import Mathlib

/-!
Verification development for the Lite Agent turn-orchestration engine.

The definitions below are a shallow embedding of the orchestrator code:

* namespace `CliCore` embeds the CLI-core variant of `GeminiService`
  (the class wrapping the gemini-cli engine): the stream-event switch of
  `send`, the `_checkToolAuthorization` / `authorize` pair, the turn loop
  with its 20-turn cap, and `restart`.
* namespace `Retry` embeds `_fetchWithRetry` of the direct Code-Assist
  variant of `GeminiService`.
* namespace `DirectApi` embeds the two direct Code-Assist `send`
  variants (the early one whose catch pops history, and the tool-loop
  one whose catch leaves history alone).

The environment of one `send` invocation is modelled as a script: the
stream fragments each remote call yields, the authorization decisions the
user supplies in order, and per-turn scheduler data.
-/

namespace CliCore

/-- Stream fragments yielded by the response stream, as consumed by the
switch in `send` (the `GeminiEventType` cases). The error event carries
the already-extracted message string. -/
inductive GeminiEvent where
  | content (s : String)
  | toolCallRequest (name : String) (args : String)
  | thought (s : String)
  | error (msg : String)
  | loopDetected
  | agentExecutionStopped (reason : String)
  | retry
  | finished
deriving DecidableEq, Repr

/-- Events the service emits to the presentation layer. -/
inductive Emitted where
  | data (s : String)
  | thought (s : String)
  | activity (s : String)
  | requestAuthorization (toolName : String) (args : String)
  | responseComplete
deriving DecidableEq, Repr

/-- Accumulator of the for-await loop over the response stream:
emitted events, queued tool-call requests, accumulated content. -/
structure StreamState where
  emitted : List Emitted
  toolCalls : List (String × String)
  content : String
deriving DecidableEq, Repr

/-- Thought text shown for a Thought event: the extracted text, with the
default used when extraction produces an empty string. -/
def thoughtText (s : String) : String :=
  if s = "" then "Thinking..." else s

/-- One iteration of the switch over a stream event inside `send`.
Content is emitted and accumulated; ToolCallRequest is logged as an
activity and queued; Thought is emitted on the side channel; Error and
LoopDetected only emit a notice on the data channel (no break);
AgentExecutionStopped and Finished emit nothing; Retry emits an
activity notice. -/
def processEvent (st : StreamState) (e : GeminiEvent) : StreamState :=
  match e with
  | .content s =>
      { st with emitted := st.emitted ++ [.data s], content := st.content ++ s }
  | .toolCallRequest n a =>
      { st with
        emitted := st.emitted ++ [.activity ("Planning tool call: " ++ n ++ "...")],
        toolCalls := st.toolCalls ++ [(n, a)] }
  | .thought s =>
      { st with emitted := st.emitted ++ [.thought (thoughtText s)] }
  | .error m =>
      { st with emitted := st.emitted ++ [.data ("\n\n⚠️ *Error: " ++ m ++ "*")] }
  | .loopDetected =>
      { st with emitted := st.emitted ++ [.data "\n\n⚠️ *Loop detected, stopping.*"] }
  | .agentExecutionStopped _ => st
  | .retry =>
      { st with emitted := st.emitted ++ [.activity "Retrying..."] }
  | .finished => st

/-- The for-await loop over the response stream. The abort signal is
checked before each fragment; `abortAt = some k` means the signal became
aborted before the fragment with index k was consumed, so only the first
k fragments are processed. -/
def processStream (events : List GeminiEvent) (abortAt : Option Nat) : StreamState :=
  let consumed :=
    match abortAt with
    | none => events
    | some k => events.take k
  consumed.foldl processEvent ⟨[], [], ""⟩

/-- Componentwise concatenation of two stream accumulators. -/
def StreamState.merge (a b : StreamState) : StreamState :=
  ⟨a.emitted ++ b.emitted, a.toolCalls ++ b.toolCalls, a.content ++ b.content⟩

/-- Decision kinds accepted by `authorize`. -/
inductive DecisionKind where
  | once
  | session
  | deny
deriving DecidableEq, Repr

/-- One call to `authorize(decision, toolName?)`, as supplied by the UI. -/
structure AuthDecision where
  decision : DecisionKind
  toolName : Option String
deriving DecidableEq, Repr

/-- How the pending authorization promise is settled. -/
inductive Resolution where
  | proceed
  | rejected
deriving DecidableEq, Repr

/-- The decision-handling body of `authorize` once a pending
authorization exists: deny rejects the promise; session with a tool
name adds that name to the approved set before resolving; everything
else just resolves. -/
def applyDecision (approved : List String) (d : AuthDecision) :
    List String × Resolution :=
  match d.decision with
  | .deny => (approved, .rejected)
  | .session =>
      match d.toolName with
      | some n => (approved.insert n, .proceed)
      | none => (approved, .proceed)
  | .once => (approved, .proceed)

/-- Result of `_checkToolAuthorization` over the queued tool calls,
given the decisions the user will supply in order: either all calls
pass (with the updated approved set and the unconsumed decisions), or a
decision was deny (the awaited promise rejects), or the decisions ran
out while a call was awaiting (the promise is never settled and the
turn stays suspended). -/
inductive AuthResult where
  | ok (approved : List String) (decisions : List AuthDecision) (events : List Emitted)
  | denied (approved : List String) (decisions : List AuthDecision) (events : List Emitted)
  | suspended (events : List Emitted)
deriving DecidableEq, Repr

/-- Events emitted during an authorization check. -/
def AuthResult.events : AuthResult → List Emitted
  | .ok _ _ em => em
  | .denied _ _ em => em
  | .suspended em => em

/-- Shallow embedding of `_checkToolAuthorization` together with the
`authorize` calls that settle each pending promise: every queued call
whose name is already approved is skipped silently; otherwise a
requestAuthorization event is emitted and the next decision is applied. -/
def checkToolAuthorization (approved : List String)
    (decisions : List AuthDecision) :
    List (String × String) → AuthResult
  | [] => .ok approved decisions []
  | t :: rest =>
    if t.1 ∈ approved then
      checkToolAuthorization approved decisions rest
    else
      match decisions with
      | [] => .suspended [.requestAuthorization t.1 t.2]
      | d :: ds =>
        match applyDecision approved d with
        | (_, .rejected) =>
            .denied approved ds [.requestAuthorization t.1 t.2]
        | (ap, .proceed) =>
          match checkToolAuthorization ap ds rest with
          | .ok a2 d2 em => .ok a2 d2 (.requestAuthorization t.1 t.2 :: em)
          | .denied a2 d2 em => .denied a2 d2 (.requestAuthorization t.1 t.2 :: em)
          | .suspended em => .suspended (.requestAuthorization t.1 t.2 :: em)

/-- Environment data for one turn of the loop in `send`: the stream
fragments the remote call yields, where (if anywhere) the abort signal
trips, whether the signal is found aborted at the top of the turn or
after authorization, the tool-result parts the scheduler records, and
whether a completed call carries the stop-execution error type. If
`throws` is set, the remote call raises instead of streaming. -/
structure TurnInput where
  events : List GeminiEvent
  abortAtTop : Bool
  abortInStream : Option Nat
  abortAfterAuth : Bool
  throws : Option String
  toolResults : List String
  stopExecution : Bool
deriving DecidableEq, Repr

/-- How one invocation of the turn loop ends. `suspended` means an
authorization was still awaiting a decision (the loop never exits), and
`scriptEnd` means the finite script supplied no further turn. -/
inductive Outcome where
  | completed
  | abortedUser
  | denied
  | capped
  | stopTool
  | errorThrown
  | suspended
  | scriptEnd
deriving DecidableEq, Repr

/-- Observable result of the turn loop: emitted events, the number of
remote calls issued, the number of scheduler invocations, the
tool-result entries recorded into history, and the way the loop ended. -/
structure LoopResult where
  emitted : List Emitted
  remoteCalls : Nat
  schedulerRuns : Nat
  toolResultsRecorded : List String
  outcome : Outcome
deriving DecidableEq, Repr

/-- The while-true turn loop of `send`, from the point where the user
prompt has been submitted. `turnCount` is the number of turns already
executed; each iteration increments it and aborts past 20. Structure of
one iteration, mirroring the code: cap check, abort check, remote call,
stream consumption, post-stream abort check, then either completion (no
tool calls) or authorization, post-authorization abort check, scheduler
execution, stop-execution check, and recursion into the next turn. -/
def runTurns (approved : List String) (decisions : List AuthDecision)
    (turnCount : Nat) : List TurnInput → LoopResult
  | [] => ⟨[], 0, 0, [], .scriptEnd⟩
  | t :: rest =>
    if 20 < turnCount + 1 then
      ⟨[.data "\n\n⚠️ *Maximum tool execution turns reached.*"], 0, 0, [], .capped⟩
    else if t.abortAtTop then
      ⟨[.data "\n\n🛑 *Execution stopped by user.*"], 0, 0, [], .abortedUser⟩
    else
      match t.throws with
      | some msg =>
        ⟨[.data ("\n\n⚠️ *Error: " ++ msg ++ "*")], 1, 0, [], .errorThrown⟩
      | none =>
        let st := processStream t.events t.abortInStream
        if t.abortInStream.isSome then
          ⟨st.emitted ++
            (if st.toolCalls.isEmpty then
              [.data "\n\n🛑 *Execution stopped by user.*"] else []),
           1, 0, [], .abortedUser⟩
        else if st.toolCalls.isEmpty then
          ⟨st.emitted, 1, 0, [], .completed⟩
        else
          match checkToolAuthorization approved decisions st.toolCalls with
          | .suspended em => ⟨st.emitted ++ em, 1, 0, [], .suspended⟩
          | .denied _ _ em =>
            ⟨st.emitted ++ em ++
              [.data "\n\n🚫 *Authorization Denied:* User denied tool execution."],
             1, 0, [], .denied⟩
          | .ok ap ds em =>
            if t.abortAfterAuth then
              ⟨st.emitted ++ em, 1, 0, [], .abortedUser⟩
            else
              let execEmit : List Emitted :=
                [.activity ("Executing " ++ toString st.toolCalls.length ++ " tool(s)...")]
              if t.stopExecution then
                ⟨st.emitted ++ em ++ execEmit, 1, 1, t.toolResults, .stopTool⟩
              else
                let r := runTurns ap ds (turnCount + 1) rest
                ⟨st.emitted ++ em ++ execEmit ++ r.emitted,
                 1 + r.remoteCalls, 1 + r.schedulerRuns,
                 t.toolResults ++ r.toolResultsRecorded, r.outcome⟩

/-- True when the loop reached a terminal exit, so that control reaches
the finally block of `send`. A suspended authorization never exits, and
`scriptEnd` means the environment model ran out of turns. -/
def Outcome.exits : Outcome → Bool
  | .suspended => false
  | .scriptEnd => false
  | _ => true

/-- The body of `send` from the point where the turn loop is entered:
runs the loop and, on any terminal exit, the finally block emits the
single responseComplete event. -/
def sendLoop (approved : List String) (decisions : List AuthDecision)
    (script : List TurnInput) : LoopResult :=
  let r := runTurns approved decisions 0 script
  { r with
    emitted := r.emitted ++ (if r.outcome.exits then [.responseComplete] else []) }

/-- Session-level mutable state of the service: readiness and
processing flags, whether an abort controller is live, the history held
by the wrapped client (none when the client is null), the set of
session-approved tool names, and whether an authorization is pending. -/
structure ServiceState where
  ready : Bool
  processing : Bool
  abortActive : Bool
  history : Option (List String)
  approvedTools : List String
  pendingAuth : Bool
deriving DecidableEq, Repr

/-- Embedding of `authorize(decision, toolName?)`: with no pending
authorization it returns immediately; otherwise it applies the decision
(deny rejects; session with a name records the name first), settles the
promise, and clears the pending slot. The returned resolution is how
the suspended turn observes the decision. -/
def authorize (s : ServiceState) (d : DecisionKind) (toolName : Option String) :
    ServiceState × Option Resolution :=
  if s.pendingAuth = false then (s, none)
  else
    match applyDecision s.approvedTools ⟨d, toolName⟩ with
    | (ap, r) =>
      ({ s with approvedTools := ap, pendingAuth := false }, some r)

/-- Successful completion of `start()`: a fresh client is built, whose
conversation history starts empty, and the service becomes ready. -/
def startService (s : ServiceState) : ServiceState :=
  { s with ready := true, history := some [] }

/-- The synchronous body of `restart()`: clears the flags, aborts and
drops the abort controller, disposes the config and nulls the client
and scheduler (dropping the history held by the client). The approved
tool set and the pending authorization slot are not touched. -/
def restartDispose (s : ServiceState) : ServiceState :=
  { s with ready := false, processing := false, abortActive := false, history := none }

/-- Embedding of `restart()` including the re-initialization it kicks
off, assuming `start()` succeeds. -/
def restart (s : ServiceState) : ServiceState :=
  startService (restartDispose s)

end CliCore

namespace Retry

/-- Shape of a fetch response as far as the retry gate inspects it: the
status code and the value of the retry-after header in seconds, when
present. -/
structure Response where
  status : Nat
  retryAfter : Option Nat
deriving DecidableEq, Repr

/-- Wait computed before a retry of attempt i: the retry-after header
value converted to milliseconds when present, else backoff times two to
the power of the attempt index. -/
def waitFor (backoff i : Nat) (res : Response) : Nat :=
  match res.retryAfter with
  | some ra => ra * 1000
  | none => backoff * 2 ^ i

/-- The loop body of `_fetchWithRetry`. The fetch of each attempt i
either throws (propagated immediately, never retried) or yields a
response; a 429 on the final attempt is returned as-is, a 429 earlier
waits and retries, and any other status returns at once. `remaining`
counts the attempts left after the current one, so the attempt index is
retries minus remaining. The returned list records the waits performed,
in milliseconds. -/
def fetchGo (fetch : Nat → Except String Response) (retries backoff : Nat) :
    Nat → List Nat → Except String Response × List Nat
  | remaining, waits =>
    let i := retries - remaining
    match fetch i with
    | .error e => (.error e, waits)
    | .ok res =>
      if res.status = 429 then
        match remaining with
        | 0 => (.ok res, waits)
        | r + 1 => fetchGo fetch retries backoff r (waits ++ [waitFor backoff i res])
      else (.ok res, waits)

/-- Embedding of `_fetchWithRetry` with its default budget of 3 retries
and base backoff of 2000 milliseconds. -/
def fetchWithRetry (fetch : Nat → Except String Response) :
    Except String Response × List Nat :=
  fetchGo fetch 3 2000 3 []

end Retry

namespace DirectApi

/-- Message part in the direct Code-Assist history. -/
inductive Part where
  | text (s : String)
  | functionCall (name : String) (args : String)
  | functionResponse (name : String) (response : String)
deriving DecidableEq, Repr

/-- Role of a history entry. -/
inductive Role where
  | user
  | model
  | func
deriving DecidableEq, Repr

/-- One entry of the conversation history kept by the direct
Code-Assist service. -/
structure ChatMessage where
  role : Role
  parts : List Part
deriving DecidableEq, Repr

/-- History effect of the early, single-call variant of `send`: the
user prompt is appended; on success the accumulated model text is
appended when nonempty; on a thrown failure the catch pops the last
history entry (the comment in the source reads: remove failed user
message). The turn result models the try body as either the full
streamed text or the thrown error message. -/
def sendV1 (history : List ChatMessage) (prompt : String)
    (result : Except String String) : List ChatMessage :=
  let h1 := history ++ [⟨.user, [.text prompt]⟩]
  match result with
  | .ok fullText =>
      if fullText = "" then h1 else h1 ++ [⟨.model, [.text fullText]⟩]
  | .error _ => h1.dropLast

/-- Environment data for one turn of the tool-loop variant of `send`:
the streamed text, the single function call retained by the stream
parser when one occurred, and the result the tool call produced. -/
structure Turn2 where
  fullText : String
  toolCall : Option (String × String)
  toolResult : String
deriving DecidableEq, Repr

/-- The while loop of the tool-loop variant of `send`: up to 5 turns;
each successful turn appends the model text when nonempty and, when a
function call occurred, the function-call and function-response
entries, then loops; a turn with no function call ends the loop. A
thrown failure is caught outside the loop and the catch leaves history
untouched (the source comment reads: do not pop history blindly). The
Bool records whether the run ended in the catch. -/
def runToolLoop (hist : List ChatMessage) (turns : Nat) :
    List (Except String Turn2) → List ChatMessage × Bool
  | [] => (hist, false)
  | r :: rest =>
    if 5 ≤ turns then (hist, false)
    else
      match r with
      | .error _ => (hist, true)
      | .ok t =>
        let h1 :=
          if t.fullText = "" then hist
          else hist ++ [⟨.model, [.text t.fullText]⟩]
        match t.toolCall with
        | none => (h1, false)
        | some (n, a) =>
          let h2 := h1 ++ [⟨.model, [.functionCall n a]⟩,
                           ⟨.func, [.functionResponse n t.toolResult]⟩]
          runToolLoop h2 (turns + 1) rest

/-- History effect of the tool-loop variant of `send`: push the user
prompt, then run the turn loop. -/
def sendToolLoop (hist : List ChatMessage) (prompt : String)
    (script : List (Except String Turn2)) : List ChatMessage × Bool :=
  runToolLoop (hist ++ [⟨.user, [.text prompt]⟩]) 0 script

end DirectApi

section SanityChecks

open CliCore

example : processStream [.content "a", .content "b"] none =
    ⟨[.data "a", .data "b"], [], "ab"⟩ := rfl

example :
    (runTurns [] [⟨.once, none⟩] 0
      [⟨[.toolCallRequest "t" "a", .error "boom", .content "after"], false, none,
        false, none, ["r"], false⟩,
       ⟨[.content "done"], false, none, false, none, [], false⟩]).remoteCalls = 2 := rfl

example :
    (sendLoop [] [] [⟨[.content "hi"], false, none, false, none, [], false⟩]).emitted
      = [.data "hi", .responseComplete] := rfl

example : (restart ⟨true, true, true, some ["h1"], ["shell"], true⟩).approvedTools
    = ["shell"] := rfl

end SanityChecks

namespace CliCore

theorem merge_assoc (a b c : StreamState) :
    (a.merge b).merge c = a.merge (b.merge c) := by
  simp [StreamState.merge, List.append_assoc, String.append_assoc]

theorem merge_empty (a : StreamState) : a.merge ⟨[], [], ""⟩ = a := by
  simp [StreamState.merge]

theorem processEvent_merge (st : StreamState) (e : GeminiEvent) :
    processEvent st e = st.merge (processEvent ⟨[], [], ""⟩ e) := by
  cases e <;> simp [processEvent, StreamState.merge]

theorem foldl_processEvent_merge (es : List GeminiEvent) :
    ∀ st : StreamState, es.foldl processEvent st = st.merge (processStream es none) := by
  induction es with
  | nil =>
    intro st
    simp [processStream, merge_empty]
  | cons e es ih =>
    intro st
    have h2 : processStream (e :: es) none
        = (processEvent ⟨[], [], ""⟩ e).merge (processStream es none) := by
      show (e :: es).foldl processEvent ⟨[], [], ""⟩ = _
      rw [List.foldl_cons, ih]
    rw [List.foldl_cons, ih, h2, processEvent_merge st e, merge_assoc]

theorem processStream_append (xs ys : List GeminiEvent) :
    processStream (xs ++ ys) none
      = (processStream xs none).merge (processStream ys none) := by
  show (xs ++ ys).foldl processEvent ⟨[], [], ""⟩ = _
  rw [List.foldl_append, foldl_processEvent_merge ys]
  rfl

theorem processStream_cons (e : GeminiEvent) (es : List GeminiEvent) :
    processStream (e :: es) none
      = (processEvent ⟨[], [], ""⟩ e).merge (processStream es none) := by
  have := processStream_append [e] es
  simpa using this

theorem processStream_abort (es : List GeminiEvent) (k : Nat) :
    processStream es (some k) = processStream (es.take k) none := rfl

theorem processEvent_no_rc (e : GeminiEvent) :
    Emitted.responseComplete ∉ (processEvent ⟨[], [], ""⟩ e).emitted := by
  cases e <;> simp [processEvent]

theorem processStream_no_rc (es : List GeminiEvent) :
    Emitted.responseComplete ∉ (processStream es none).emitted := by
  induction es with
  | nil => simp [processStream]
  | cons e es ih =>
    rw [processStream_cons]
    simp only [StreamState.merge, List.mem_append]
    rintro (h | h)
    · exact processEvent_no_rc e h
    · exact ih h

theorem checkAuth_no_rc (calls : List (String × String)) :
    ∀ (ap : List String) (ds : List AuthDecision),
      Emitted.responseComplete ∉ (checkToolAuthorization ap ds calls).events := by
  induction calls with
  | nil =>
    intro ap ds
    simp [checkToolAuthorization, AuthResult.events]
  | cons t rest ih =>
    intro ap ds
    by_cases h : t.1 ∈ ap
    · simpa [checkToolAuthorization, h] using ih ap ds
    · simp only [checkToolAuthorization, if_neg h]
      cases ds with
      | nil => simp [AuthResult.events]
      | cons d ds =>
        cases had : applyDecision ap d with
        | mk ap2 r =>
          cases r with
          | rejected => simp [had, AuthResult.events]
          | proceed =>
            cases hc : checkToolAuthorization ap2 ds rest
            all_goals
              have ihr := ih ap2 ds
              rw [hc] at ihr
              simp only [AuthResult.events] at ihr
              simp [had, hc, AuthResult.events, ihr]

theorem processStream_no_rc2 (es : List GeminiEvent) (ab : Option Nat) :
    Emitted.responseComplete ∉ (processStream es ab).emitted := by
  cases ab with
  | none => exact processStream_no_rc es
  | some k =>
    rw [processStream_abort]
    exact processStream_no_rc (es.take k)

theorem runTurns_no_rc (script : List TurnInput) :
    ∀ (ap : List String) (ds : List AuthDecision) (k : Nat),
      Emitted.responseComplete ∉ (runTurns ap ds k script).emitted := by
  induction script with
  | nil => intro ap ds k; simp [runTurns]
  | cons t rest ih =>
    intro ap ds k
    simp only [runTurns]
    split
    · simp
    split
    · simp
    split
    · simp
    split
    · -- abort during the stream
      simp only [List.mem_append]
      rintro (h | h)
      · exact processStream_no_rc2 t.events t.abortInStream h
      · revert h
        split <;> simp
    split
    · -- no tool calls
      exact processStream_no_rc2 t.events t.abortInStream
    split
    · -- suspended authorization
      rename_i em heq
      have hev := checkAuth_no_rc (processStream t.events t.abortInStream).toolCalls ap ds
      rw [heq] at hev
      simp only [AuthResult.events] at hev
      simp only [List.mem_append]
      rintro (h | h)
      · exact processStream_no_rc2 t.events t.abortInStream h
      · exact hev h
    · -- denied authorization
      rename_i a2 d2 em heq
      have hev := checkAuth_no_rc (processStream t.events t.abortInStream).toolCalls ap ds
      rw [heq] at hev
      simp only [AuthResult.events] at hev
      simp only [List.mem_append]
      rintro ((h | h) | h)
      · exact processStream_no_rc2 t.events t.abortInStream h
      · exact hev h
      · simp at h
    · -- authorization passed
      rename_i ap2 ds2 em heq
      have hev := checkAuth_no_rc (processStream t.events t.abortInStream).toolCalls ap ds
      rw [heq] at hev
      simp only [AuthResult.events] at hev
      split
      · simp only [List.mem_append]
        rintro (h | h)
        · exact processStream_no_rc2 t.events t.abortInStream h
        · exact hev h
      split
      · simp only [List.mem_append]
        rintro ((h | h) | h)
        · exact processStream_no_rc2 t.events t.abortInStream h
        · exact hev h
        · simp at h
      · simp only [List.mem_append]
        rintro (((h | h) | h) | h)
        · exact processStream_no_rc2 t.events t.abortInStream h
        · exact hev h
        · simp at h
        · exact ih ap2 ds2 (k + 1) h

theorem runTurns_remoteCalls_le (script : List TurnInput) :
    ∀ (ap : List String) (ds : List AuthDecision) (k : Nat),
      (runTurns ap ds k script).remoteCalls ≤ 20 - k := by
  induction script with
  | nil => intro ap ds k; simp [runTurns]
  | cons t rest ih =>
    intro ap ds k
    simp only [runTurns]
    split
    · simp
    rename_i hcap
    have hk : k ≤ 19 := by omega
    split
    · simp
    split
    · simp; omega
    split
    · simp; omega
    split
    · simp; omega
    split
    · simp; omega
    · simp; omega
    · rename_i ap2 ds2 em2 heq
      split
      · simp; omega
      split
      · simp; omega
      · have := ih ap2 ds2 (k + 1)
        simp
        omega

theorem sendLoop_rc_once (ap : List String) (ds : List AuthDecision)
    (script : List TurnInput)
    (h : (runTurns ap ds 0 script).outcome.exits = true) :
    ((sendLoop ap ds script).emitted.count Emitted.responseComplete) = 1 := by
  simp only [sendLoop, h, if_true]
  rw [List.count_append]
  rw [List.count_eq_zero.mpr (runTurns_no_rc script ap ds 0)]
  simp

theorem applyDecision_fst_mem (approved : List String) (d : AuthDecision)
    (n : String) (h : n ∈ approved) : n ∈ (applyDecision approved d).1 := by
  rcases d with ⟨dec, tn⟩
  cases dec with
  | deny => simpa [applyDecision] using h
  | once => simpa [applyDecision] using h
  | session =>
    cases tn with
    | none => simpa [applyDecision] using h
    | some m => simp [applyDecision, List.mem_insert_iff, h]

theorem checkAuth_no_request_for_approved (calls : List (String × String)) :
    ∀ (ap : List String) (ds : List AuthDecision) (name args : String),
      name ∈ ap →
      Emitted.requestAuthorization name args ∉
        (checkToolAuthorization ap ds calls).events := by
  induction calls with
  | nil =>
    intro ap ds name args h
    simp [checkToolAuthorization, AuthResult.events]
  | cons t rest ih =>
    intro ap ds name args h
    by_cases hm : t.1 ∈ ap
    · simpa [checkToolAuthorization, hm] using ih ap ds name args h
    · have hne : name ≠ t.1 := fun he => hm (he ▸ h)
      simp only [checkToolAuthorization, if_neg hm]
      cases ds with
      | nil =>
        simp [AuthResult.events]
        exact fun h1 _ => hne h1
      | cons d ds =>
        cases had : applyDecision ap d with
        | mk ap2 r =>
          cases r with
          | rejected =>
            simp [had, AuthResult.events]
            exact fun h1 _ => hne h1
          | proceed =>
            have h2 : name ∈ ap2 := by
              have := applyDecision_fst_mem ap d name h
              rw [had] at this
              exact this
            cases hc : checkToolAuthorization ap2 ds rest
            all_goals
              have ihr := ih ap2 ds name args h2
              rw [hc] at ihr
              simp only [AuthResult.events] at ihr
              simp [had, hc, AuthResult.events, ihr]
              exact fun h1 _ => hne h1

theorem checkAuth_all_approved (calls : List (String × String)) :
    ∀ (ap : List String) (ds : List AuthDecision) (name : String),
      name ∈ ap → (∀ c ∈ calls, c.1 = name) →
      checkToolAuthorization ap ds calls = .ok ap ds [] := by
  induction calls with
  | nil => intro ap ds name h hall; simp [checkToolAuthorization]
  | cons t rest ih =>
    intro ap ds name h hall
    have ht : t.1 = name := hall t (by simp)
    have hm : t.1 ∈ ap := ht ▸ h
    simp only [checkToolAuthorization, if_pos hm]
    exact ih ap ds name h (fun c hc => hall c (by simp [hc]))

end CliCore

namespace DirectApi

theorem runToolLoop_extends (script : List (Except String Turn2)) :
    ∀ (hist : List ChatMessage) (turns : Nat),
      ∃ tail, (runToolLoop hist turns script).1 = hist ++ tail := by
  induction script with
  | nil => intro hist turns; exact ⟨[], by simp [runToolLoop]⟩
  | cons r rest ih =>
    intro hist turns
    simp only [runToolLoop]
    split
    · exact ⟨[], by simp⟩
    cases r with
    | error e => exact ⟨[], by simp⟩
    | ok t =>
      cases htc : t.toolCall with
      | none =>
        by_cases hf : t.fullText = ""
        · exact ⟨[], by simp [htc, hf]⟩
        · exact ⟨[⟨.model, [.text t.fullText]⟩], by simp [htc, hf]⟩
      | some p =>
        rcases p with ⟨n, a⟩
        by_cases hf : t.fullText = ""
        · rcases ih (hist ++ [⟨.model, [.functionCall n a]⟩,
              ⟨.func, [.functionResponse n t.toolResult]⟩]) (turns + 1) with ⟨tail, htail⟩
          refine ⟨[⟨.model, [.functionCall n a]⟩,
              ⟨.func, [.functionResponse n t.toolResult]⟩] ++ tail, ?_⟩
          simp only [htc, hf]
          simp at htail ⊢
          simp [htail]
        · rcases ih (hist ++ [⟨.model, [.text t.fullText]⟩,
              ⟨.model, [.functionCall n a]⟩,
              ⟨.func, [.functionResponse n t.toolResult]⟩]) (turns + 1) with ⟨tail, htail⟩
          refine ⟨[⟨.model, [.text t.fullText]⟩, ⟨.model, [.functionCall n a]⟩,
              ⟨.func, [.functionResponse n t.toolResult]⟩] ++ tail, ?_⟩
          simp only [htc, hf]
          simp at htail ⊢
          simp [htail]

end DirectApi

open CliCore Retry DirectApi

/-- C1 counterexample: restart does not empty the ApprovalRecord. For a
concrete state with the tool name shell approved for session, the
approved set after restart still contains shell, and the next call to
shell passes the authorization check with no requestAuthorization event
and no decision needed — it does not pass the Authorization Gate again. -/
theorem restart_claim_counterexample :
    (restart ⟨true, false, true, some ["hello", "answer"], ["shell"], false⟩).approvedTools
      = ["shell"] ∧
    checkToolAuthorization
      (restart ⟨true, false, true, some ["hello", "answer"], ["shell"], false⟩).approvedTools
      [] [("shell", "cmd")] = .ok ["shell"] [] [] := by
  constructor
  · rfl
  · decide

/-- C1 (amended): invoking restart empties the ConversationHistory (the
re-created client starts with an empty history) but leaves the
ApprovalRecord unchanged: every tool name approved for session before
the restart is still session-approved afterwards, and its next call
skips the Authorization Gate. -/
theorem restart_clears_history_not_approvals (s : ServiceState) :
    (restart s).history = some [] ∧
    (restart s).approvedTools = s.approvedTools ∧
    (∀ (n args : String) (ds : List AuthDecision), n ∈ s.approvedTools →
       checkToolAuthorization (restart s).approvedTools ds [(n, args)]
         = .ok s.approvedTools ds []) := by
  refine ⟨rfl, rfl, ?_⟩
  intro n args ds h
  have he : (restart s).approvedTools = s.approvedTools := rfl
  rw [he]
  simp [checkToolAuthorization, h]

/-- Witness for the amended C1 theorem at a concrete state. -/
theorem restart_clears_history_not_approvals_witness :
    ("shell" ∈ (["shell"] : List String)) ∧
    checkToolAuthorization
      (restart ⟨false, true, true, some ["x"], ["shell"], true⟩).approvedTools
      [] [("shell", "ls")] = .ok ["shell"] [] [] :=
  ⟨by decide,
   (restart_clears_history_not_approvals
      ⟨false, true, true, some ["x"], ["shell"], true⟩).2.2 "shell" "ls" [] (by decide)⟩

/-- C2 counterexample: an Error fragment does not abort the turn. In a
concrete run whose first turn streams a tool call, then an Error
fragment, then more content, the fragment after the error is still
consumed (its data event is emitted), the queued tool call is still
authorized and executed (one scheduler run), and a second remote call
is issued — contradicting the claim that the turn aborts at the error
fragment with no further consumption, no execution and no next call. -/
theorem stream_error_abort_counterexample :
    (sendLoop [] [⟨DecisionKind.once, none⟩]
       [⟨[.toolCallRequest "t" "a", .error "boom", .content "after"],
         false, none, false, none, ["r"], false⟩,
        ⟨[.content "done"], false, none, false, none, [], false⟩]).remoteCalls = 2 ∧
    (sendLoop [] [⟨DecisionKind.once, none⟩]
       [⟨[.toolCallRequest "t" "a", .error "boom", .content "after"],
         false, none, false, none, ["r"], false⟩,
        ⟨[.content "done"], false, none, false, none, [], false⟩]).schedulerRuns = 1 ∧
    Emitted.data "after" ∈
      (sendLoop [] [⟨DecisionKind.once, none⟩]
        [⟨[.toolCallRequest "t" "a", .error "boom", .content "after"],
          false, none, false, none, ["r"], false⟩,
         ⟨[.content "done"], false, none, false, none, [], false⟩]).emitted ∧
    (sendLoop [] [⟨DecisionKind.once, none⟩]
       [⟨[.toolCallRequest "t" "a", .error "boom", .content "after"],
         false, none, false, none, ["r"], false⟩,
        ⟨[.content "done"], false, none, false, none, [], false⟩]).outcome
      = Outcome.completed := by
  decide

/-- C2 (amended): an Error fragment, and likewise a LoopDetected
fragment, does not abort the turn: processing the stream around it is
exactly the processing of the fragments before it, followed by a single
notice on the data channel, followed by the processing of all the
fragments after it — tool calls before and after the error are still
queued, and the turn then proceeds normally. -/
theorem error_fragment_emits_notice_and_continues
    (pre post : List GeminiEvent) (msg : String) :
    processStream (pre ++ GeminiEvent.error msg :: post) none
      = (processStream pre none).merge
          (StreamState.merge
            ⟨[Emitted.data ("\n\n⚠️ *Error: " ++ msg ++ "*")], [], ""⟩
            (processStream post none)) ∧
    processStream (pre ++ GeminiEvent.loopDetected :: post) none
      = (processStream pre none).merge
          (StreamState.merge
            ⟨[Emitted.data "\n\n⚠️ *Loop detected, stopping.*"], [], ""⟩
            (processStream post none)) := by
  constructor
  · have h1 : pre ++ GeminiEvent.error msg :: post
        = pre ++ ([GeminiEvent.error msg] ++ post) := by simp
    have h2 : processStream [GeminiEvent.error msg] none
        = ⟨[Emitted.data ("\n\n⚠️ *Error: " ++ msg ++ "*")], [], ""⟩ := rfl
    rw [h1, processStream_append, processStream_append, h2]
  · have h1 : pre ++ GeminiEvent.loopDetected :: post
        = pre ++ ([GeminiEvent.loopDetected] ++ post) := by simp
    have h2 : processStream [GeminiEvent.loopDetected] none
        = ⟨[Emitted.data "\n\n⚠️ *Loop detected, stopping.*"], [], ""⟩ := rfl
    rw [h1, processStream_append, processStream_append, h2]

/-- C3: for any single send invocation, at most 20 remote-call turns are
executed; once 20 turns have run, the next attempted turn emits the
maximum-turns cap message and terminates the loop without issuing a
remote call; and a concrete fully-driving script indeed executes
exactly 20 remote calls and ends capped. -/
theorem turn_cap_twenty :
    (∀ (ap : List String) (ds : List AuthDecision) (script : List TurnInput),
       (runTurns ap ds 0 script).remoteCalls ≤ 20) ∧
    (∀ (ap : List String) (ds : List AuthDecision) (t : TurnInput)
       (rest : List TurnInput),
       runTurns ap ds 20 (t :: rest) =
         ⟨[.data "\n\n⚠️ *Maximum tool execution turns reached.*"], 0, 0, [], .capped⟩) ∧
    (runTurns [] (List.replicate 25 ⟨DecisionKind.once, none⟩) 0
        (List.replicate 25
          ⟨[.toolCallRequest "t" "a"], false, none, false, none, ["r"], false⟩)).remoteCalls
      = 20 ∧
    (runTurns [] (List.replicate 25 ⟨DecisionKind.once, none⟩) 0
        (List.replicate 25
          ⟨[.toolCallRequest "t" "a"], false, none, false, none, ["r"], false⟩)).outcome
      = Outcome.capped := by
  refine ⟨?_, ?_, ?_, ?_⟩
  · intro ap ds script
    have := runTurns_remoteCalls_le script ap ds 0
    simpa using this
  · intro ap ds t rest
    simp [runTurns]
  · decide
  · decide

/-- C4: whenever the turn loop of a send invocation reaches a terminal
exit — normal completion, user abort, authorization denial, turn-cap
stop, tool-requested stop, or a thrown error — the events emitted by
the whole invocation contain the responseComplete event exactly once:
the loop itself never emits it, and the finally block emits it once. -/
theorem response_complete_exactly_once (ap : List String)
    (ds : List AuthDecision) (script : List TurnInput)
    (h : (runTurns ap ds 0 script).outcome.exits = true) :
    ((sendLoop ap ds script).emitted.count Emitted.responseComplete) = 1 :=
  sendLoop_rc_once ap ds script h

/-- Witness for the C4 theorem at a concrete one-turn script. -/
theorem response_complete_exactly_once_witness :
    (runTurns [] [] 0 [⟨[.content "hi"], false, none, false, none, [], false⟩]).outcome.exits
      = true ∧
    ((sendLoop [] [] [⟨[.content "hi"], false, none, false, none, [], false⟩]).emitted.count
        Emitted.responseComplete) = 1 :=
  ⟨by decide,
   response_complete_exactly_once [] []
     [⟨[.content "hi"], false, none, false, none, [], false⟩] (by decide)⟩

/-- C5: when the authorization of a turn is denied, that turn terminates
at the denial — the scheduler is not invoked in that turn, no
tool-result entry is recorded in that turn, the remaining queued tool
calls are abandoned, the loop ends with the denied outcome — and a
send invocation whose loop ends denied emits responseComplete exactly
once. -/
theorem deny_terminates_turn :
    (∀ (ap : List String) (ds : List AuthDecision) (tc : Nat) (t : TurnInput)
       (rest : List TurnInput) (a2 : List String) (d2 : List AuthDecision)
       (em : List Emitted),
       ¬ 20 < tc + 1 → t.abortAtTop = false → t.throws = none →
       t.abortInStream = none →
       checkToolAuthorization ap ds (processStream t.events none).toolCalls
         = .denied a2 d2 em →
       runTurns ap ds tc (t :: rest) =
         ⟨(processStream t.events none).emitted ++ em ++
            [.data "\n\n🚫 *Authorization Denied:* User denied tool execution."],
          1, 0, [], .denied⟩) ∧
    (∀ (ap : List String) (ds : List AuthDecision) (script : List TurnInput),
       (runTurns ap ds 0 script).outcome = Outcome.denied →
       ((sendLoop ap ds script).emitted.count Emitted.responseComplete) = 1) := by
  constructor
  · intro ap ds tc t rest a2 d2 em hcap hat hth hab hden
    have hne : (processStream t.events none).toolCalls.isEmpty = false := by
      cases hie : (processStream t.events none).toolCalls.isEmpty
      · rfl
      · exfalso
        rw [List.isEmpty_iff] at hie
        rw [hie] at hden
        simp [checkToolAuthorization] at hden
    simp [runTurns, hcap, hat, hth, hab, hne, hden]
  · intro ap ds script h
    apply sendLoop_rc_once
    rw [h]
    rfl

/-- Witness for the C5 theorem at a concrete denied turn. -/
theorem deny_terminates_turn_witness :
    runTurns [] [⟨DecisionKind.deny, none⟩] 0
        [⟨[.toolCallRequest "sh" "x"], false, none, false, none, [], false⟩] =
      ⟨(processStream [GeminiEvent.toolCallRequest "sh" "x"] none).emitted ++
         [Emitted.requestAuthorization "sh" "x"] ++
         [.data "\n\n🚫 *Authorization Denied:* User denied tool execution."],
       1, 0, [], .denied⟩ ∧
    ((sendLoop [] [⟨DecisionKind.deny, none⟩]
        [⟨[.toolCallRequest "sh" "x"], false, none, false, none, [], false⟩]).emitted.count
      Emitted.responseComplete) = 1 :=
  ⟨deny_terminates_turn.1 [] [⟨DecisionKind.deny, none⟩] 0
     ⟨[.toolCallRequest "sh" "x"], false, none, false, none, [], false⟩ [] [] []
     [Emitted.requestAuthorization "sh" "x"]
     (by decide) rfl rfl rfl rfl,
   deny_terminates_turn.2 [] [⟨DecisionKind.deny, none⟩]
     [⟨[.toolCallRequest "sh" "x"], false, none, false, none, [], false⟩] (by decide)⟩

/-- C6: after authorize with the session decision and a tool name while
an authorization is pending, that name is in the ApprovalRecord and the
pending call proceeds; any tool whose name is in the ApprovalRecord
never produces a requestAuthorization event in any later authorization
check; and a call list consisting only of approved names passes the
gate untouched, with no events and no decision consumed. -/
theorem session_approval_skips_gate :
    (∀ (s : ServiceState) (name : String), s.pendingAuth = true →
       name ∈ (authorize s DecisionKind.session (some name)).1.approvedTools ∧
       (authorize s DecisionKind.session (some name)).2 = some Resolution.proceed) ∧
    (∀ (approved : List String) (ds : List AuthDecision)
       (calls : List (String × String)) (name args : String), name ∈ approved →
       Emitted.requestAuthorization name args ∉
         (checkToolAuthorization approved ds calls).events) ∧
    (∀ (approved : List String) (ds : List AuthDecision)
       (calls : List (String × String)) (name : String),
       name ∈ approved → (∀ c ∈ calls, c.1 = name) →
       checkToolAuthorization approved ds calls = .ok approved ds []) := by
  refine ⟨?_, ?_, ?_⟩
  · intro s name h
    constructor
    · simp [authorize, h, applyDecision, List.mem_insert_iff]
    · simp [authorize, h, applyDecision]
  · intro approved ds calls name args h
    exact checkAuth_no_request_for_approved calls approved ds name args h
  · intro approved ds calls name h hall
    exact checkAuth_all_approved calls approved ds name h hall

/-- Witness for the C6 theorem at concrete inputs. -/
theorem session_approval_skips_gate_witness :
    ("sh" ∈ (authorize ⟨true, false, false, some [], [], true⟩
        DecisionKind.session (some "sh")).1.approvedTools ∧
     (authorize ⟨true, false, false, some [], [], true⟩
        DecisionKind.session (some "sh")).2 = some Resolution.proceed) ∧
    Emitted.requestAuthorization "sh" "x" ∉
      (checkToolAuthorization ["sh"] [] [("sh", "x")]).events ∧
    checkToolAuthorization ["sh"] [] [("sh", "x")] = .ok ["sh"] [] [] :=
  ⟨session_approval_skips_gate.1 ⟨true, false, false, some [], [], true⟩ "sh" rfl,
   session_approval_skips_gate.2.1 ["sh"] [] [("sh", "x")] "sh" "x" (by decide),
   session_approval_skips_gate.2.2 ["sh"] [] [("sh", "x")] "sh" (by decide) (by decide)⟩

/-- C7: the retry gate, with its budget of 3 retries and base backoff
of 2000 milliseconds: when every attempt yields a 429 response, each of
the three waits is the retry-after header value in seconds converted to
milliseconds when present, else base times two to the power of the
attempt index, and the final 429 response is returned as-is rather than
raised; any response with a status other than 429 is returned at once
with no wait performed. -/
theorem fetch_retry_contract :
    (∀ f : Nat → Response, (∀ i, i ≤ 3 → (f i).status = 429) →
       fetchWithRetry (fun i => .ok (f i)) =
         (.ok (f 3),
          [waitFor 2000 0 (f 0), waitFor 2000 1 (f 1), waitFor 2000 2 (f 2)])) ∧
    (∀ (g : Nat → Except String Response) (r : Response),
       g 0 = .ok r → r.status ≠ 429 → fetchWithRetry g = (.ok r, [])) ∧
    (∀ (res : Response) (backoff i : Nat), res.retryAfter = none →
       waitFor backoff i res = backoff * 2 ^ i) ∧
    (∀ (res : Response) (backoff i ra : Nat), res.retryAfter = some ra →
       waitFor backoff i res = ra * 1000) := by
  refine ⟨?_, ?_, ?_, ?_⟩
  · intro f h
    have h0 := h 0 (by omega)
    have h1 := h 1 (by omega)
    have h2 := h 2 (by omega)
    have h3 := h 3 (by omega)
    simp [fetchWithRetry, fetchGo, h0, h1, h2, h3]
  · intro g r hg hr
    simp [fetchWithRetry, fetchGo, hg, hr]
  · intro res backoff i h
    simp [waitFor, h]
  · intro res backoff i ra h
    simp [waitFor, h]

/-- Witness for the C7 theorem: a constantly rate-limited fetch and an
immediately successful fetch. -/
theorem fetch_retry_contract_witness :
    fetchWithRetry (fun _ => Except.ok (⟨429, none⟩ : Response)) =
      (Except.ok (⟨429, none⟩ : Response),
        [waitFor 2000 0 ⟨429, none⟩, waitFor 2000 1 ⟨429, none⟩,
         waitFor 2000 2 ⟨429, none⟩]) ∧
    fetchWithRetry (fun _ => Except.ok (⟨200, none⟩ : Response)) =
      (Except.ok (⟨200, none⟩ : Response), []) :=
  ⟨fetch_retry_contract.1 (fun _ => ⟨429, none⟩) (fun _ _ => rfl),
   fetch_retry_contract.2.1 (fun _ => Except.ok ⟨200, none⟩) ⟨200, none⟩ rfl
     (by decide)⟩

/-- C8 counterexample: in the early direct-API variant of send, a
network failure after the user prompt was appended does roll history
back — the catch pops the just-appended user entry. At the concrete
input here, history before the failure held the user entry, and after
the failure it is empty. -/
theorem history_pop_counterexample :
    sendV1 [] "hi" (Except.error "API error 500") = [] ∧
    (⟨Role.user, [Part.text "hi"]⟩ : ChatMessage) ∉
      sendV1 [] "hi" (Except.error "API error 500") := by
  constructor
  · rfl
  · decide

/-- C8 (amended): in the tool-loop variant of send, history accumulated
up to a failure point is preserved on the error path — the run only
ever appends to history, so the final history extends the history plus
the user entry, and a turn that throws returns the history reached so
far unchanged. The earlier non-tool-loop variant instead pops the
failed user entry. -/
theorem tool_loop_preserves_history :
    (∀ (hist : List ChatMessage) (prompt : String)
       (script : List (Except String Turn2)),
       ∃ tail, (sendToolLoop hist prompt script).1
         = hist ++ [⟨Role.user, [Part.text prompt]⟩] ++ tail) ∧
    (∀ (hist : List ChatMessage) (turns : Nat) (e : String)
       (rest : List (Except String Turn2)), turns < 5 →
       runToolLoop hist turns (Except.error e :: rest) = (hist, true)) := by
  constructor
  · intro hist prompt script
    rcases runToolLoop_extends script (hist ++ [⟨Role.user, [Part.text prompt]⟩]) 0
      with ⟨tail, ht⟩
    exact ⟨tail, by simpa [sendToolLoop] using ht⟩
  · intro hist turns e rest h
    simp [runToolLoop, Nat.not_le.mpr h]

/-- Witness for the amended C8 theorem at a concrete failing turn. -/
theorem tool_loop_preserves_history_witness :
    (0 : Nat) < 5 ∧
    runToolLoop [⟨Role.user, [Part.text "hi"]⟩] 0 [Except.error "boom"]
      = ([⟨Role.user, [Part.text "hi"]⟩], true) :=
  ⟨by decide,
   tool_loop_preserves_history.2 [⟨Role.user, [Part.text "hi"]⟩] 0 "boom" []
     (by decide)⟩

/-- C9: authorize with the session decision but no tool name, while an
authorization is pending, resolves the pending call as approved (it
proceeds to execution) yet records nothing in the ApprovalRecord, so a
later authorization check of a call with the same tool name emits a
requestAuthorization event for it again. -/
theorem session_without_name_not_recorded (s : ServiceState)
    (name args : String) (ds : List AuthDecision)
    (h : s.pendingAuth = true) (hn : name ∉ s.approvedTools) :
    authorize s DecisionKind.session none
      = ({ s with pendingAuth := false }, some Resolution.proceed) ∧
    (authorize s DecisionKind.session none).1.approvedTools = s.approvedTools ∧
    (∃ restEvents,
       (checkToolAuthorization
          (authorize s DecisionKind.session none).1.approvedTools
          ds [(name, args)]).events
         = Emitted.requestAuthorization name args :: restEvents) := by
  have hA : authorize s DecisionKind.session none
      = ({ s with pendingAuth := false }, some Resolution.proceed) := by
    simp [authorize, h, applyDecision]
  refine ⟨hA, by rw [hA], ?_⟩
  rw [hA]
  cases ds with
  | nil => exact ⟨[], by simp [checkToolAuthorization, hn, AuthResult.events]⟩
  | cons d ds =>
    cases had : applyDecision s.approvedTools d with
    | mk ap2 r =>
      cases r with
      | rejected =>
        exact ⟨[], by simp [checkToolAuthorization, hn, had, AuthResult.events]⟩
      | proceed =>
        exact ⟨[], by simp [checkToolAuthorization, hn, had, AuthResult.events]⟩

/-- Witness for the C9 theorem at a concrete state. -/
theorem session_without_name_not_recorded_witness :
    authorize ⟨true, false, false, some [], [], true⟩ DecisionKind.session none
      = (⟨true, false, false, some [], [], false⟩, some Resolution.proceed) ∧
    (authorize ⟨true, false, false, some [], [], true⟩
        DecisionKind.session none).1.approvedTools = [] ∧
    (∃ restEvents,
       (checkToolAuthorization
          (authorize ⟨true, false, false, some [], [], true⟩
             DecisionKind.session none).1.approvedTools
          [] [("sh", "x")]).events
         = Emitted.requestAuthorization "sh" "x" :: restEvents) :=
  session_without_name_not_recorded
    ⟨true, false, false, some [], [], true⟩ "sh" "x" [] rfl (by decide)

/-- C10: calling authorize with any decision and any optional tool name
while no authorization is pending is a complete no-op: the state is
returned unchanged and no resolution is delivered to any turn. -/
theorem authorize_noop_without_pending (s : ServiceState) (d : DecisionKind)
    (n : Option String) (h : s.pendingAuth = false) :
    authorize s d n = (s, none) := by
  simp [authorize, h]

/-- Witness for the C10 theorem at a concrete state. -/
theorem authorize_noop_without_pending_witness :
    authorize ⟨true, false, false, some ["u"], ["sh"], false⟩
        DecisionKind.deny (some "sh")
      = (⟨true, false, false, some ["u"], ["sh"], false⟩, none) :=
  authorize_noop_without_pending ⟨true, false, false, some ["u"], ["sh"], false⟩
    DecisionKind.deny (some "sh") rfl
